import Mathlib

/-!
Verification development for bd_nvt_lj.py (Brownian dynamics, NVT
ensemble, BAOAB integrator).

The numeric core of the program is embedded over a linear ordered field:
the purely algebraic pieces (drift, kick, periodic wrap) are generic and
are instantiated at ℚ for executable witnesses, while the stochastic
O-propagator and the observable calculator, which use exp and sqrt, are
stated over ℝ.  The pairwise force routine (md_lj_module) and the
long-range-correction functions (lrc_module) are external collaborators
of this file's program and are modelled as function parameters; the
overlap flag they report drives the integrator's abort behaviour.
Machine floating point is modelled by exact field arithmetic; numpy's
rint (round half to even) is modelled exactly, including its tie
behaviour.
-/

namespace BD

/-- Averaging method tag of an observable, as used by averages_module:
a plain block/run average (the default) or a mean-square-deviation
based estimator. -/
inductive AvgMethod
  | avg
  | msd
deriving DecidableEq

/-- VariableType record from averages_module: display name,
instantaneous value, averaging method. -/
structure VariableType where
  nam : String
  val : ℝ
  method : AvgMethod

/-- PotentialType summary returned by the force routine of
md_lj_module: pot is the cut-and-shifted potential, cut the cut but
unshifted potential, vir the virial, lap the Laplacian sum, ovr the
overlap flag. -/
structure PotentialType where
  pot : ℝ
  cut : ℝ
  vir : ℝ
  lap : ℝ
  ovr : Bool

/-- Per-particle force arrays: one 3-vector per particle. -/
abbrev Forces (n : ℕ) := Fin n → Fin 3 → ℝ

/-- Contract of the external force routine `force ( box, r_cut, r )`
from md_lj_module: from box length, cutoff and positions it returns a
PotentialType summary together with per-particle forces. -/
abbrev ForceFn (n : ℕ) := ℝ → ℝ → (Fin n → Fin 3 → ℝ) → PotentialType × Forces n

/-- Simulation state: box edge length, positions r in box=1 units and
velocities v in physical units, for n particles (the globals box, r, v
of the program). -/
structure MDState (α : Type*) (n : ℕ) where
  box : α
  r : Fin n → Fin 3 → α
  v : Fin n → Fin 3 → α

/-- numpy's rint: round to the nearest integer, ties to even. -/
def rint {α : Type*} [LinearOrderedField α] [FloorRing α] (x : α) : ℤ :=
  if Int.fract x < 1 / 2 then ⌊x⌋
  else if 1 / 2 < Int.fract x then ⌊x⌋ + 1
  else if ⌊x⌋ % 2 = 0 then ⌊x⌋ else ⌊x⌋ + 1

/-- The periodic wrap `r - np.rint ( r )` applied to one coordinate. -/
def wrap {α : Type*} [LinearOrderedField α] [FloorRing α] (x : α) : α :=
  x - rint x

/-- a_propagator: drift step.  `r = r + t * v / box` followed by
`r = r - np.rint ( r )` (periodic boundaries); box and v untouched. -/
def a_propagator {α : Type*} [LinearOrderedField α] [FloorRing α] {n : ℕ}
    (t : α) (s : MDState α n) : MDState α n :=
  let r1 : Fin n → Fin 3 → α := fun i k => s.r i k + t * s.v i k / s.box
  { s with r := fun i k => r1 i k - (rint (r1 i k) : α) }

/-- b_propagator: kick step.  `v = v + t * f`; r and box untouched. -/
def b_propagator {α : Type*} [Field α] {n : ℕ}
    (t : α) (f : Fin n → Fin 3 → α) (s : MDState α n) : MDState α n :=
  { s with v := fun i k => s.v i k + t * f i k }

/-- np.polyval: evaluate a polynomial given by its coefficient list,
highest degree first, by Horner's rule. -/
def polyval {α : Type*} [Field α] (coeffs : List α) (x : α) : α :=
  coeffs.foldl (fun acc c => acc * x + c) 0

/-- o_propagator: friction and random contributions step, acting on the
velocities.  x = gamma*t; c = 1 - exp(-2x) for x above the 1e-4
threshold, otherwise the quartic Horner polynomial
np.polyval([-2/3, 4/3, -2, 2, 0], x); then
v = v*exp(-x) + sqrt(c)*sqrt(temperature)*xi, with xi the fresh
standard-normal draw of this call (np.random.randn(n,3)), modelled here
as an explicit per-call argument. -/
noncomputable def o_propagator {n : ℕ} (t gamma temperature : ℝ)
    (xi : Fin n → Fin 3 → ℝ) (s : MDState ℝ n) : MDState ℝ n :=
  let x := gamma * t
  let c := if x > 1 / 10000 then 1 - Real.exp (-2 * x)
           else polyval [-2 / 3, 4 / 3, -2, 2, 0] x
  let c' := Real.sqrt c
  { s with v := fun i k => s.v i k * Real.exp (-x) + c' * Real.sqrt temperature * xi i k }

/-- The calculate routine: all instantaneous observables, in program
order, from the particle count, box, cutoff, specified temperature,
current velocities, forces and PotentialType summary.  The long-range
corrections potential_lrc and pressure_lrc live in the external
lrc_module and are taken as function parameters. -/
noncomputable def calculate {n : ℕ} (box r_cut temperature : ℝ)
    (v f : Fin n → Fin 3 → ℝ) (total : PotentialType)
    (potential_lrc pressure_lrc : ℝ → ℝ → ℝ) : List VariableType :=
  let vol := box ^ 3
  let rho := (n : ℝ) / vol
  let kin := 0.5 * ∑ i, ∑ k, v i k ^ 2
  let fsq := ∑ i, ∑ k, f i k ^ 2
  let e_s : VariableType := ⟨"E/N cut&shifted", (kin + total.pot) / n, AvgMethod.avg⟩
  let e_f : VariableType := ⟨"E/N full", potential_lrc rho r_cut + (kin + total.cut) / n, AvgMethod.avg⟩
  let p_s : VariableType := ⟨"P cut&shifted", rho * temperature + total.vir / vol, AvgMethod.avg⟩
  let p_f : VariableType := ⟨"P full", pressure_lrc rho r_cut + rho * temperature + total.vir / vol, AvgMethod.avg⟩
  let t_k : VariableType := ⟨"T kinetic", 2 * kin / (3 * n), AvgMethod.avg⟩
  let t_c : VariableType := ⟨"T config", fsq / total.lap, AvgMethod.avg⟩
  let c_s : VariableType := ⟨"Cv/N cut&shifted", (kin + total.pot) / (temperature * Real.sqrt n), AvgMethod.msd⟩
  let c_f : VariableType := ⟨"Cv/N full", (kin + total.cut) / (temperature * Real.sqrt n), AvgMethod.msd⟩
  [e_s, p_s, e_f, p_f, t_k, t_c, c_s, c_f]

/-- What the calculate routine writes out: when a heading string is
supplied it prints the first six variables only (the slice
variables[:6], excluding the MSD-tagged ones); with no string nothing
is written. -/
def writtenVariables (string : Option String) (vars : List VariableType) :
    List VariableType :=
  match string with
  | some _ => vars.take 6
  | none => []

/-- RunParameters of the program, immutable for the run. -/
structure RunParams where
  nblock : ℕ
  nstep : ℕ
  r_cut : ℝ
  dt : ℝ
  temperature : ℝ
  gamma : ℝ

/-- One step of the BAOAB loop body (lines of the step loop): B(dt/2)
with the previous forces, A(dt/2), O(dt), A(dt/2), force recomputation,
the overlap assert, B(dt/2) with the new forces, and the observable
computation whose result is handed to blk_add.  Returns the freshly
computed PotentialType summary together with either the failure of the
overlap assert or the new state, new forces and the observables list. -/
noncomputable def mdStep {n : ℕ} (force : ForceFn n) (P : RunParams)
    (plrc prlrc : ℝ → ℝ → ℝ) (xi : Fin n → Fin 3 → ℝ)
    (s : MDState ℝ n) (f : Forces n) :
    PotentialType × Except String (MDState ℝ n × Forces n × List VariableType) :=
  let s1 := b_propagator (P.dt / 2) f s
  let s2 := a_propagator (P.dt / 2) s1
  let s3 := o_propagator P.dt P.gamma P.temperature xi s2
  let s4 := a_propagator (P.dt / 2) s3
  let tf := force s4.box P.r_cut s4.r
  (tf.1,
    if tf.1.ovr then Except.error "Overlap in configuration"
    else
      let s5 := b_propagator (P.dt / 2) tf.2 s4
      Except.ok (s5, tf.2, calculate s5.box P.r_cut P.temperature s5.v tf.2 tf.1 plrc prlrc))

/-- Kind of a checkpoint at which the overlap flag is inspected:
on the initial configuration, after a step's force recomputation, or on
the final configuration after all blocks. -/
inductive CheckKind
  | initial
  | step
  | final
deriving DecidableEq

/-- The inner step loop: runs the given number of steps, drawing the
noise of step number idx from the noise stream, recording for each step
the overlap checkpoint (kind and observed flag) and aborting on the
first overlap, as the per-step assert does. -/
noncomputable def stepLoop {n : ℕ} (force : ForceFn n) (P : RunParams)
    (plrc prlrc : ℝ → ℝ → ℝ) (noise : ℕ → Forces n) :
    ℕ → ℕ → MDState ℝ n → Forces n →
    List (CheckKind × Bool) × Except String (MDState ℝ n × Forces n)
  | 0, _, s, f => ([], Except.ok (s, f))
  | k + 1, idx, s, f =>
    let res := mdStep force P plrc prlrc (noise idx) s f
    match res.2 with
    | Except.error e => ([(CheckKind.step, res.1.ovr)], Except.error e)
    | Except.ok (s5, f5, _) =>
      let rest := stepLoop force P plrc prlrc noise k (idx + 1) s5 f5
      ((CheckKind.step, res.1.ovr) :: rest.1, rest.2)

/-- The block loop: nblock blocks of nstep steps each.  The per-block
collaborator calls (blk_begin, blk_end, the configuration snapshot)
are external side effects with no influence on state or control flow
and are not modelled. -/
noncomputable def blockLoop {n : ℕ} (force : ForceFn n) (P : RunParams)
    (plrc prlrc : ℝ → ℝ → ℝ) (noise : ℕ → Forces n) :
    ℕ → ℕ → MDState ℝ n → Forces n →
    List (CheckKind × Bool) × Except String (MDState ℝ n × Forces n)
  | 0, _, s, f => ([], Except.ok (s, f))
  | b + 1, idx, s, f =>
    match stepLoop force P plrc prlrc noise P.nstep idx s f with
    | (log, Except.error e) => (log, Except.error e)
    | (log, Except.ok (s', f')) =>
      let rest := blockLoop force P plrc prlrc noise b (idx + P.nstep) s' f'
      (log ++ rest.1, rest.2)

/-- The whole run, from the initial force evaluation and overlap assert
(the initial configuration is assumed already wrapped, as the program
wraps it right after reading) through the block loop to the final force
evaluation and overlap assert.  Returns the ordered list of overlap
checkpoints performed (kind and observed overlap flag) and either the
raised assertion or the final state. -/
noncomputable def runSim {n : ℕ} (force : ForceFn n) (P : RunParams)
    (plrc prlrc : ℝ → ℝ → ℝ) (noise : ℕ → Forces n) (s0 : MDState ℝ n) :
    List (CheckKind × Bool) × Except String (MDState ℝ n) :=
  let tf0 := force s0.box P.r_cut s0.r
  if tf0.1.ovr then
    ([(CheckKind.initial, tf0.1.ovr)], Except.error "Overlap in initial configuration")
  else
    match blockLoop force P plrc prlrc noise P.nblock 0 s0 tf0.2 with
    | (log, Except.error e) => ((CheckKind.initial, tf0.1.ovr) :: log, Except.error e)
    | (log, Except.ok (s1, _)) =>
      let tfF := force s1.box P.r_cut s1.r
      if tfF.1.ovr then
        ((CheckKind.initial, tf0.1.ovr) :: (log ++ [(CheckKind.final, tfF.1.ovr)]),
          Except.error "Overlap in final configuration")
      else
        ((CheckKind.initial, tf0.1.ovr) :: (log ++ [(CheckKind.final, tfF.1.ovr)]),
          Except.ok s1)

/-- JSON scalar values as produced by json.load for the parameter
namelist (ints and floats are distinct Python types; floats are
modelled as rationals). -/
inductive JValue
  | jint : ℤ → JValue
  | jreal : ℚ → JValue
  | jbool : Bool → JValue
  | jstr : String → JValue
  | jnull
deriving DecidableEq

/-- Python type tags of JValue, for the type(val) == type(default)
check (bool is its own type, distinct from int). -/
inductive JType
  | tint
  | treal
  | tbool
  | tstr
  | tnull
deriving DecidableEq

/-- The Python type of a JValue. -/
def JValue.typeOf : JValue → JType
  | JValue.jint _ => JType.tint
  | JValue.jreal _ => JType.treal
  | JValue.jbool _ => JType.tbool
  | JValue.jstr _ => JType.tstr
  | JValue.jnull => JType.tnull

/-- The defaults dictionary of the program, with its documented
default values. -/
def defaultsList : List (String × JValue) :=
  [("nblock", JValue.jint 10), ("nstep", JValue.jint 1000),
   ("r_cut", JValue.jreal (5 / 2)), ("dt", JValue.jreal (1 / 200)),
   ("temperature", JValue.jreal 1), ("gamma", JValue.jreal 1)]

/-- Lookup of a key in the defaults dictionary. -/
def defaultsLookup (k : String) : Option JValue :=
  defaultsList.lookup k

/-- The key/typecheck loop over the input namelist: a recognized key
whose value's type differs from its default's type trips the assert
(fatal); an unrecognized key only produces a warning naming the key.
Returns the warnings, in order, or the assertion message. -/
def checkParams : List (String × JValue) → Except String (List String)
  | [] => Except.ok []
  | (k, v) :: rest =>
    match defaultsLookup k with
    | some d =>
      if v.typeOf = d.typeOf then checkParams rest
      else Except.error (k ++ " has the wrong type")
    | none =>
      match checkParams rest with
      | Except.ok ws => Except.ok (k :: ws)
      | Except.error e => Except.error e

/-- Parameter extraction: the input value when the key is present,
its default otherwise (the pattern
`nml[key] if key in nml else defaults[key]`). -/
def paramOrDefault (nml : List (String × JValue)) (k : String) : Option JValue :=
  match nml.lookup k with
  | some v => some v
  | none => defaultsLookup k

/-- Modelled from the spec: the per-step transition of the integrator
driver exactly as the spec lists it, sub-steps numbered and strictly
ordered — 1. B(dt/2) using the previous step's forces, 2. A(dt/2),
3. O(dt), 4. A(dt/2), 5. force recomputation from the post-drift
positions, 6. fail fast on overlap, 7. B(dt/2) using the newly
computed forces, 8. observables computed and handed to the block
accumulator. -/
noncomputable def specStep {n : ℕ} (force : ForceFn n) (P : RunParams)
    (plrc prlrc : ℝ → ℝ → ℝ) (xi : Fin n → Fin 3 → ℝ)
    (s : MDState ℝ n) (f : Forces n) :
    PotentialType × Except String (MDState ℝ n × Forces n × List VariableType) :=
  let afterB1 := b_propagator (P.dt / 2) f s
  let afterA1 := a_propagator (P.dt / 2) afterB1
  let afterO := o_propagator P.dt P.gamma P.temperature xi afterA1
  let afterA2 := a_propagator (P.dt / 2) afterO
  let recomputed := force afterA2.box P.r_cut afterA2.r
  (recomputed.1,
    if recomputed.1.ovr then Except.error "Overlap in configuration"
    else
      let afterB2 := b_propagator (P.dt / 2) recomputed.2 afterA2
      Except.ok (afterB2, recomputed.2,
        calculate afterB2.box P.r_cut P.temperature afterB2.v recomputed.2
          recomputed.1 plrc prlrc))

/-- A concrete one-particle rational state (unit box, wrapped position
at the origin, small velocity) used as an executable witness input. -/
def RV : MDState ℚ 1 :=
  ⟨1, fun _ _ => 0, fun _ _ => 1 / 10⟩

/-! ## Helper lemmas -/

/-- Horner evaluation of the O-propagator's small-x coefficient list
equals the explicit quartic polynomial. -/
theorem polyval_small_x (x : ℝ) :
    polyval [-2 / 3, 4 / 3, -2, 2, 0] x =
      2 * x - 2 * x ^ 2 + (4 / 3) * x ^ 3 - (2 / 3) * x ^ 4 := by
  simp only [polyval, List.foldl]
  ring

section WrapLemmas

variable {α : Type*} [LinearOrderedField α] [FloorRing α]

/-- Any value in the closed interval [-1/2, 1/2] rounds to zero under
round-half-to-even (both endpoints tie towards the even integer 0). -/
theorem rint_eq_zero {x : α} (h1 : -(1 / 2) ≤ x) (h2 : x ≤ 1 / 2) : rint x = 0 := by
  unfold rint
  rcases le_or_lt 0 x with hx | hx
  · have hfl : ⌊x⌋ = 0 := by
      rw [Int.floor_eq_zero_iff]
      exact ⟨hx, by linarith⟩
    have hfr : Int.fract x = x := by
      rw [Int.fract]
      rw [hfl]
      simp
    rw [hfr, hfl]
    split_ifs with ha hb hc
    · rfl
    · linarith
    · rfl
    · simp at hc
  · have hfl : ⌊x⌋ = -1 := by
      rw [Int.floor_eq_iff]
      constructor
      · push_cast
        linarith
      · push_cast
        linarith
    have hfr : Int.fract x = x + 1 := by
      rw [Int.fract, hfl]
      push_cast
      ring
    rw [hfr, hfl]
    split_ifs with ha hb hc
    · linarith
    · norm_num
    · norm_num at hc
    · norm_num

/-- The wrapped value always lies in the closed interval [-1/2, 1/2]
(the right endpoint is attained: round-half-to-even leaves a fractional
part of exactly 1/2 in place when the floor is even). -/
theorem wrap_bounds (x : α) : -(1 / 2) ≤ wrap x ∧ wrap x ≤ 1 / 2 := by
  have h0 : (0 : α) ≤ Int.fract x := Int.fract_nonneg x
  have h1 : Int.fract x < 1 := Int.fract_lt_one x
  have hfr : Int.fract x = x - ⌊x⌋ := rfl
  unfold wrap rint
  split_ifs with ha hb hc
  · constructor <;> linarith
  · push_cast
    constructor <;> linarith
  · have heq : Int.fract x = 1 / 2 := le_antisymm (not_lt.mp hb) (not_lt.mp ha)
    constructor <;> linarith
  · have heq : Int.fract x = 1 / 2 := le_antisymm (not_lt.mp hb) (not_lt.mp ha)
    push_cast
    constructor <;> linarith

/-- Wrapping an already wrapped value subtracts rint = 0. -/
theorem wrap_wrap (x : α) : wrap (wrap x) = wrap x := by
  have hb := wrap_bounds x
  have hz : rint (wrap x) = 0 := rint_eq_zero hb.1 hb.2
  unfold wrap
  unfold wrap at hz
  rw [hz]
  push_cast
  ring

end WrapLemmas

/-! ## Claim theorems -/

/-- C4: for every time argument t and every particle, the A propagator
adds t * velocity / box to the stored box-fraction position and
re-wraps each coordinate by subtracting the nearest integer, and it
modifies positions only: velocities and the box length are unchanged. -/
theorem a_propagator_spec {α : Type*} [LinearOrderedField α] [FloorRing α] {n : ℕ}
    (t : α) (s : MDState α n) :
    (a_propagator t s).r = (fun i k => wrap (s.r i k + t * s.v i k / s.box)) ∧
    (a_propagator t s).v = s.v ∧ (a_propagator t s).box = s.box :=
  ⟨rfl, rfl, rfl⟩

/-- C2: for every call O(t) with x = gamma*t, the coefficient c is
1 - exp(-2x) when x exceeds the threshold 1/10000 and the quartic
2x - 2x² + (4/3)x³ - (2/3)x⁴ when x is at or below it, and each
velocity becomes velocity * exp(-x) + sqrt(c) * sqrt(temperature) * xi
with xi the per-call standard-normal draw. -/
theorem o_propagator_formula {n : ℕ} (t gamma temperature : ℝ)
    (xi : Fin n → Fin 3 → ℝ) (s : MDState ℝ n) :
    (o_propagator t gamma temperature xi s).v = (fun i k =>
      s.v i k * Real.exp (-(gamma * t)) +
        Real.sqrt (if gamma * t > 1 / 10000 then 1 - Real.exp (-2 * (gamma * t))
          else 2 * (gamma * t) - 2 * (gamma * t) ^ 2 +
            (4 / 3) * (gamma * t) ^ 3 - (2 / 3) * (gamma * t) ^ 4) *
        Real.sqrt temperature * xi i k) ∧
    (o_propagator t gamma temperature xi s).r = s.r ∧
    (o_propagator t gamma temperature xi s).box = s.box := by
  refine ⟨?_, rfl, rfl⟩
  simp only [o_propagator, polyval_small_x]

/-- C9: when gamma * t = 0 the O propagator is the identity: the
small-x polynomial gives c = 0, so the noise term vanishes for every
random draw, and exp(-0) = 1 leaves every velocity unchanged. -/
theorem o_propagator_zero_x {n : ℕ} (t gamma temperature : ℝ)
    (xi : Fin n → Fin 3 → ℝ) (s : MDState ℝ n)
    (h : gamma * t = 0) :
    o_propagator t gamma temperature xi s = s := by
  simp only [o_propagator, h]
  norm_num [polyval]

/-- Witness for C9 at the concrete input gamma = 0, t = 1 with a
nonzero noise draw. -/
theorem o_propagator_zero_x_witness :
    (0 : ℝ) * 1 = 0 ∧
      o_propagator (n := 1) 1 0 1 (fun _ _ => 1)
          ⟨1, fun _ _ => 0, fun _ _ => 2⟩ = ⟨1, fun _ _ => 0, fun _ _ => 2⟩ :=
  ⟨by norm_num,
    o_propagator_zero_x 1 0 1 (fun _ _ => 1) ⟨1, fun _ _ => 0, fun _ _ => 2⟩ (by norm_num)⟩

/-- C8: the kinetic-temperature observable equals 2K/(3n) with
K = 0.5 * Σ|v_i|², and the configurational-temperature observable
equals (total squared force) / laplacian_sum. -/
theorem temperature_observables {n : ℕ} (box r_cut temperature : ℝ)
    (v f : Fin n → Fin 3 → ℝ) (total : PotentialType)
    (plrc prlrc : ℝ → ℝ → ℝ) :
    (calculate box r_cut temperature v f total plrc prlrc)[4]? =
      some ⟨"T kinetic", 2 * (0.5 * ∑ i, ∑ k, v i k ^ 2) / (3 * n), AvgMethod.avg⟩ ∧
    (calculate box r_cut temperature v f total plrc prlrc)[5]? =
      some ⟨"T config", (∑ i, ∑ k, f i k ^ 2) / total.lap, AvgMethod.avg⟩ :=
  ⟨rfl, rfl⟩

/-- C10: the observable calculator returns exactly eight observables in
the fixed order, only the last two (the heat capacities) carry the msd
averaging tag, and when a heading string is supplied only the first six
are written, never the msd-tagged ones. -/
theorem observable_list_structure {n : ℕ} (box r_cut temperature : ℝ)
    (v f : Fin n → Fin 3 → ℝ) (total : PotentialType)
    (plrc prlrc : ℝ → ℝ → ℝ) :
    (calculate box r_cut temperature v f total plrc prlrc).map VariableType.nam =
      ["E/N cut&shifted", "P cut&shifted", "E/N full", "P full",
       "T kinetic", "T config", "Cv/N cut&shifted", "Cv/N full"] ∧
    (calculate box r_cut temperature v f total plrc prlrc).map VariableType.method =
      [AvgMethod.avg, AvgMethod.avg, AvgMethod.avg, AvgMethod.avg,
       AvgMethod.avg, AvgMethod.avg, AvgMethod.msd, AvgMethod.msd] ∧
    (∀ str : String,
      writtenVariables (some str) (calculate box r_cut temperature v f total plrc prlrc) =
        (calculate box r_cut temperature v f total plrc prlrc).take 6) ∧
    (∀ str : String,
      ∀ x ∈ writtenVariables (some str) (calculate box r_cut temperature v f total plrc prlrc),
        x.method ≠ AvgMethod.msd) := by
  refine ⟨rfl, rfl, fun _ => rfl, fun str x hx => ?_⟩
  simp only [writtenVariables, calculate, List.take, List.mem_cons, List.not_mem_nil,
    or_false] at hx
  rcases hx with rfl | rfl | rfl | rfl | rfl | rfl <;> simp

/-- Counterexample to C5 as stated: np.rint rounds half to even, so
the coordinate 1/2 is wrapped to itself, which does not lie in the
half-open interval [-0.5, 0.5). -/
theorem wrap_half_escapes_Ico :
    wrap (1 / 2 : ℚ) = 1 / 2 ∧ ¬ wrap (1 / 2 : ℚ) < 1 / 2 := by
  have h : wrap (1 / 2 : ℚ) = 1 / 2 := by
    unfold wrap
    rw [rint_eq_zero (by norm_num) (by norm_num)]
    norm_num
  refine ⟨h, ?_⟩
  rw [h]
  exact lt_irrefl _

/-- C5 (amended): the periodic wrap is idempotent, and every wrapped
coordinate lies in the closed interval [-0.5, 0.5]; the right endpoint
is attained (e.g. at 1/2), because np.rint rounds ties to even, so the
interval cannot be taken half-open. -/
theorem wrap_idempotent_bounded {α : Type*} [LinearOrderedField α] [FloorRing α]
    (x : α) :
    wrap (wrap x) = wrap x ∧ -(1 / 2) ≤ wrap x ∧ wrap x ≤ 1 / 2 :=
  ⟨wrap_wrap x, wrap_bounds x⟩

/-- C6: A(t) followed by A(-t) restores the positions provided both
intervening wraps are no-ops (the drifted position and the original
position both round to the nearest integer 0), and B(t) followed by
B(-t) with the same forces restores the velocities unconditionally. -/
theorem ab_reversible {α : Type*} [LinearOrderedField α] [FloorRing α] {n : ℕ}
    (t : α) (s : MDState α n)
    (h1 : ∀ i k, rint (s.r i k + t * s.v i k / s.box) = 0)
    (h2 : ∀ i k, rint (s.r i k) = 0) :
    (a_propagator (-t) (a_propagator t s)).r = s.r ∧
    ∀ f : Fin n → Fin 3 → α,
      (b_propagator (-t) f (b_propagator t f s)).v = s.v := by
  constructor
  · funext i k
    show (let r1 : Fin n → Fin 3 → α := fun i k =>
            (a_propagator t s).r i k + (-t) * (a_propagator t s).v i k / (a_propagator t s).box
          (fun i k => r1 i k - (rint (r1 i k) : α)) i k) = s.r i k
    have hA : (a_propagator t s).r i k = s.r i k + t * s.v i k / s.box := by
      show s.r i k + t * s.v i k / s.box - (rint (s.r i k + t * s.v i k / s.box) : α) = _
      rw [h1 i k]
      push_cast
      ring
    have hv : (a_propagator t s).v = s.v := rfl
    have hbox : (a_propagator t s).box = s.box := rfl
    simp only [hA, hv, hbox]
    have harg : s.r i k + t * s.v i k / s.box + -t * s.v i k / s.box = s.r i k := by
      ring
    rw [harg, h2 i k]
    push_cast
    ring
  · intro f
    funext i k
    show s.v i k + t * f i k + (-t) * f i k = s.v i k
    ring

/-- Witness for C6 at a concrete rational state within which neither
wrap acts. -/
theorem ab_reversible_witness :
    ((∀ i : Fin 1, ∀ k : Fin 3,
        rint ((RV.r i k : ℚ) + (1 / 2 : ℚ) * RV.v i k / RV.box) = 0) ∧
      (∀ i : Fin 1, ∀ k : Fin 3, rint (RV.r i k : ℚ) = 0)) ∧
    (a_propagator (-(1 / 2 : ℚ)) (a_propagator (1 / 2 : ℚ) RV)).r = RV.r ∧
    (∀ f : Fin 1 → Fin 3 → ℚ,
      (b_propagator (-(1 / 2 : ℚ)) f (b_propagator (1 / 2 : ℚ) f RV)).v = RV.v) :=
  ⟨⟨fun _ _ => rint_eq_zero (by norm_num [RV]) (by norm_num [RV]),
    fun _ _ => rint_eq_zero (by norm_num [RV]) (by norm_num [RV])⟩,
   ab_reversible (1 / 2 : ℚ) RV
     (fun _ _ => rint_eq_zero (by norm_num [RV]) (by norm_num [RV]))
     (fun _ _ => rint_eq_zero (by norm_num [RV]) (by norm_num [RV]))⟩

/-- C1: every simulation step applies exactly the spec's sequence —
B(dt/2) with the previous forces, A(dt/2), O(dt), A(dt/2), force and
potential recomputation from the post-drift positions, the overlap
check, B(dt/2) with the new forces, and the observable computation
handed to the block accumulator. -/
theorem step_sequence {n : ℕ} (force : ForceFn n) (P : RunParams)
    (plrc prlrc : ℝ → ℝ → ℝ) (xi : Fin n → Fin 3 → ℝ)
    (s : MDState ℝ n) (f : Forces n) :
    mdStep force P plrc prlrc xi s f = specStep force P plrc prlrc xi s f :=
  rfl

/-- A step whose result is an assertion failure observed overlap. -/
theorem mdStep_error_ovr {n : ℕ} (force : ForceFn n) (P : RunParams)
    (plrc prlrc : ℝ → ℝ → ℝ) (xi : Fin n → Fin 3 → ℝ)
    (s : MDState ℝ n) (f : Forces n) {e : String}
    (h : (mdStep force P plrc prlrc xi s f).2 = Except.error e) :
    (mdStep force P plrc prlrc xi s f).1.ovr = true := by
  dsimp only [mdStep] at h ⊢
  split_ifs at h with hc
  exact hc

/-- A step whose result is a success saw no overlap. -/
theorem mdStep_ok_ovr {n : ℕ} (force : ForceFn n) (P : RunParams)
    (plrc prlrc : ℝ → ℝ → ℝ) (xi : Fin n → Fin 3 → ℝ)
    (s : MDState ℝ n) (f : Forces n)
    {y : MDState ℝ n × Forces n × List VariableType}
    (h : (mdStep force P plrc prlrc xi s f).2 = Except.ok y) :
    (mdStep force P plrc prlrc xi s f).1.ovr = false := by
  dsimp only [mdStep] at h ⊢
  split_ifs at h with hc
  simpa using hc

/-- Characterization of the step loop's checkpoint log: either all
steps succeed and the log is one clean per-step checkpoint per step,
or the loop aborts at the first overlap, whose checkpoint ends the
log. -/
theorem stepLoop_char {n : ℕ} (force : ForceFn n) (P : RunParams)
    (plrc prlrc : ℝ → ℝ → ℝ) (noise : ℕ → Forces n) :
    ∀ (k idx : ℕ) (s : MDState ℝ n) (f : Forces n),
      (∃ s' f', stepLoop force P plrc prlrc noise k idx s f =
          (List.replicate k (CheckKind.step, false), Except.ok (s', f'))) ∨
      (∃ j e, stepLoop force P plrc prlrc noise k idx s f =
          (List.replicate j (CheckKind.step, false) ++ [(CheckKind.step, true)],
            Except.error e)) := by
  intro k
  induction k with
  | zero =>
    intro idx s f
    exact Or.inl ⟨s, f, rfl⟩
  | succ k ih =>
    intro idx s f
    rcases hres : (mdStep force P plrc prlrc (noise idx) s f).2 with e | y
    · refine Or.inr ⟨0, e, ?_⟩
      have hovr := mdStep_error_ovr force P plrc prlrc (noise idx) s f hres
      simp [stepLoop, hres, hovr]
    · obtain ⟨s5, f5, vars⟩ := y
      have hovr := mdStep_ok_ovr force P plrc prlrc (noise idx) s f hres
      rcases ih (idx + 1) s5 f5 with ⟨s', f', hrec⟩ | ⟨j, e, hrec⟩
      · refine Or.inl ⟨s', f', ?_⟩
        simp [stepLoop, hres, hovr, hrec, List.replicate_succ]
      · refine Or.inr ⟨j + 1, e, ?_⟩
        simp [stepLoop, hres, hovr, hrec, List.replicate_succ]

/-- Characterization of the block loop's checkpoint log. -/
theorem blockLoop_char {n : ℕ} (force : ForceFn n) (P : RunParams)
    (plrc prlrc : ℝ → ℝ → ℝ) (noise : ℕ → Forces n) :
    ∀ (b idx : ℕ) (s : MDState ℝ n) (f : Forces n),
      (∃ s' f', blockLoop force P plrc prlrc noise b idx s f =
          (List.replicate (b * P.nstep) (CheckKind.step, false), Except.ok (s', f'))) ∨
      (∃ j e, blockLoop force P plrc prlrc noise b idx s f =
          (List.replicate j (CheckKind.step, false) ++ [(CheckKind.step, true)],
            Except.error e)) := by
  intro b
  induction b with
  | zero =>
    intro idx s f
    exact Or.inl ⟨s, f, by simp [blockLoop]⟩
  | succ b ih =>
    intro idx s f
    rcases stepLoop_char force P plrc prlrc noise P.nstep idx s f with
      ⟨s1, f1, hstep⟩ | ⟨j, e, hstep⟩
    · rcases ih (idx + P.nstep) s1 f1 with ⟨s', f', hrec⟩ | ⟨j, e, hrec⟩
      · refine Or.inl ⟨s', f', ?_⟩
        have hadd : P.nstep + b * P.nstep = (b + 1) * P.nstep := by ring
        simp [blockLoop, hstep, hrec, ← List.replicate_add, hadd]
      · refine Or.inr ⟨P.nstep + j, e, ?_⟩
        simp [blockLoop, hstep, hrec, ← List.append_assoc, ← List.replicate_add]
    · refine Or.inr ⟨j, e, ?_⟩
      simp [blockLoop, hstep]

/-- Counterexample to C3 as stated: the run also checks overlap on the
final configuration after all blocks (a third kind of checkpoint).  In
a run with one block of zero steps and an overlap-free force field the
checkpoint log consists of the initial checkpoint and a final one,
which is of neither of the two kinds the claim allows. -/
theorem run_final_checkpoint_exists :
    ((runSim (n := 1) (fun _ _ _ => (⟨0, 0, 0, 0, false⟩, fun _ _ => 0))
        ⟨1, 0, 5 / 2, 1 / 200, 1, 1⟩ (fun _ _ => 0) (fun _ _ => 0) (fun _ _ _ => 0)
        ⟨1, fun _ _ => 0, fun _ _ => 0⟩).1).map Prod.fst =
      [CheckKind.initial, CheckKind.final] ∧
    CheckKind.final ≠ CheckKind.initial ∧ CheckKind.final ≠ CheckKind.step := by
  refine ⟨?_, by decide, by decide⟩
  rfl

/-- C3 (amended): overlap is checked at three kinds of checkpoints —
the initial configuration before any integration, after every step's
force recomputation, and the final configuration after all blocks —
and whenever the force summary reports overlap the run aborts fatally
at that checkpoint: the offending checkpoint ends the log and the
result is the error, never a retry or continuation.  A fully
successful run performs exactly the initial checkpoint,
nblock*nstep per-step checkpoints and the final checkpoint, all
overlap-free. -/
theorem run_overlap_checkpoints {n : ℕ} (force : ForceFn n) (P : RunParams)
    (plrc prlrc : ℝ → ℝ → ℝ) (noise : ℕ → Forces n) (s0 : MDState ℝ n) :
    (∃ s1, runSim force P plrc prlrc noise s0 =
        ((CheckKind.initial, false) ::
          (List.replicate (P.nblock * P.nstep) (CheckKind.step, false) ++
            [(CheckKind.final, false)]),
          Except.ok s1)) ∨
    (∃ e, (runSim force P plrc prlrc noise s0).2 = Except.error e ∧
      ((runSim force P plrc prlrc noise s0).1 = [(CheckKind.initial, true)] ∨
       (∃ j, (runSim force P plrc prlrc noise s0).1 =
          (CheckKind.initial, false) ::
            (List.replicate j (CheckKind.step, false) ++ [(CheckKind.step, true)])) ∨
       (runSim force P plrc prlrc noise s0).1 =
          (CheckKind.initial, false) ::
            (List.replicate (P.nblock * P.nstep) (CheckKind.step, false) ++
              [(CheckKind.final, true)]))) := by
  rcases hovr0 : (force s0.box P.r_cut s0.r).1.ovr with _ | _
  · rcases blockLoop_char force P plrc prlrc noise P.nblock 0 s0
        (force s0.box P.r_cut s0.r).2 with ⟨s1, f1, hblk⟩ | ⟨j, e, hblk⟩
    · rcases hovrF : (force s1.box P.r_cut s1.r).1.ovr with _ | _
      · refine Or.inl ⟨s1, ?_⟩
        simp [runSim, hovr0, hblk, hovrF]
      · refine Or.inr ⟨"Overlap in final configuration", ?_, ?_⟩
        · simp [runSim, hovr0, hblk, hovrF]
        · refine Or.inr (Or.inr ?_)
          simp [runSim, hovr0, hblk, hovrF]
    · refine Or.inr ⟨e, ?_, Or.inr (Or.inl ⟨j, ?_⟩)⟩
      · simp [runSim, hovr0, hblk]
      · simp [runSim, hovr0, hblk]
  · refine Or.inr ⟨"Overlap in initial configuration", ?_, Or.inl ?_⟩
    · simp [runSim, hovr0]
    · simp [runSim, hovr0]

/-- When every recognized key in the namelist is well typed, the
key/typecheck loop succeeds and warns exactly about the unrecognized
keys, in order. -/
theorem checkParams_ok (nml : List (String × JValue))
    (h : ∀ k v d, (k, v) ∈ nml → defaultsLookup k = some d →
      JValue.typeOf v = d.typeOf) :
    checkParams nml =
      Except.ok ((nml.filter (fun kv => (defaultsLookup kv.1).isNone)).map Prod.fst) := by
  induction nml with
  | nil => rfl
  | cons kv rest ih =>
    obtain ⟨k, v⟩ := kv
    have hrest : ∀ k' v' d', (k', v') ∈ rest → defaultsLookup k' = some d' →
        JValue.typeOf v' = d'.typeOf :=
      fun k' v' d' hm hd => h k' v' d' (List.mem_cons_of_mem _ hm) hd
    rcases hd : defaultsLookup k with _ | d
    · simp [checkParams, hd, ih hrest]
    · have ht := h k v d (List.mem_cons_self _ _) hd
      simp [checkParams, hd, ht, ih hrest]

/-- A recognized key with a value of the wrong type makes the
key/typecheck loop fail with an assertion. -/
theorem checkParams_error (nml : List (String × JValue)) (k : String)
    (v d : JValue) (hm : (k, v) ∈ nml) (hd : defaultsLookup k = some d)
    (hne : JValue.typeOf v ≠ d.typeOf) :
    ∃ e, checkParams nml = Except.error e := by
  induction nml with
  | nil => simp at hm
  | cons kv rest ih =>
    obtain ⟨k', v'⟩ := kv
    rcases List.mem_cons.mp hm with heq | hmem
    · rcases heq with ⟨rfl, rfl⟩
      refine ⟨k ++ " has the wrong type", ?_⟩
      simp [checkParams, hd, hne]
    · rcases hcase : defaultsLookup k' with _ | d'
      · obtain ⟨e, he⟩ := ih hmem
        exact ⟨e, by simp [checkParams, hcase, he]⟩
      · by_cases ht : JValue.typeOf v' = d'.typeOf
        · obtain ⟨e, he⟩ := ih hmem
          exact ⟨e, by simp [checkParams, hcase, ht, he]⟩
        · exact ⟨k' ++ " has the wrong type", by simp [checkParams, hcase, ht]⟩

/-- An absent key falls back to its default. -/
theorem paramOrDefault_absent (nml : List (String × JValue)) (k : String)
    (h : nml.lookup k = none) :
    paramOrDefault nml k = defaultsLookup k := by
  simp [paramOrDefault, h]

/-- Unrecognized keys are ignored by parameter extraction: dropping
them from the namelist changes no recognized parameter. -/
theorem paramOrDefault_ignores (nml : List (String × JValue)) (k : String)
    (hk : (defaultsLookup k).isSome) :
    paramOrDefault nml k =
      paramOrDefault (nml.filter (fun kv => (defaultsLookup kv.1).isSome)) k := by
  induction nml with
  | nil => rfl
  | cons kv rest ih =>
    obtain ⟨k', v'⟩ := kv
    by_cases hbeq : k == k'
    · have hkk : k = k' := by simpa using hbeq
      subst hkk
      simp [paramOrDefault, List.lookup, List.filter, hk]
    · have hfilter :
          ((k', v') :: rest).filter (fun kv => (defaultsLookup kv.1).isSome) =
            if (defaultsLookup k').isSome
            then (k', v') :: rest.filter (fun kv => (defaultsLookup kv.1).isSome)
            else rest.filter (fun kv => (defaultsLookup kv.1).isSome) := by
        simp [List.filter_cons]
      rcases hrec : (defaultsLookup k').isSome with _ | _
      · simp only [hfilter, hrec, if_neg Bool.false_ne_true]
        simpa [paramOrDefault, List.lookup, hbeq] using ih
      · simp only [hfilter, hrec, if_pos rfl]
        simpa [paramOrDefault, List.lookup, hbeq] using ih

/-- C7: a key outside the six recognized keys produces a warning and
the run continues with that key ignored; a recognized key whose
value's type differs from its default's type is fatal; absent keys
take their documented defaults (the values recorded in defaultsList). -/
theorem config_validation (nml : List (String × JValue)) :
    ((∀ k v d, (k, v) ∈ nml → defaultsLookup k = some d →
        JValue.typeOf v = d.typeOf) →
      checkParams nml =
        Except.ok ((nml.filter (fun kv => (defaultsLookup kv.1).isNone)).map Prod.fst)) ∧
    (∀ k v d, (k, v) ∈ nml → defaultsLookup k = some d →
      JValue.typeOf v ≠ d.typeOf → ∃ e, checkParams nml = Except.error e) ∧
    (∀ k, nml.lookup k = none → paramOrDefault nml k = defaultsLookup k) ∧
    (∀ k, (defaultsLookup k).isSome →
      paramOrDefault nml k =
        paramOrDefault (nml.filter (fun kv => (defaultsLookup kv.1).isSome)) k) :=
  ⟨checkParams_ok nml,
   fun k v d hm hd hne => checkParams_error nml k v d hm hd hne,
   fun k h => paramOrDefault_absent nml k h,
   fun k hk => paramOrDefault_ignores nml k hk⟩

/-- Witness for C7: an unrecognized key is warned about and ignored, a
wrongly typed r_cut (int instead of real) is fatal, and an absent dt
falls back to its default. -/
theorem config_validation_witness :
    checkParams [("bogus", JValue.jbool true)] = Except.ok ["bogus"] ∧
    (∃ e, checkParams [("r_cut", JValue.jint 3)] = Except.error e) ∧
    paramOrDefault [("bogus", JValue.jbool true)] "dt" = defaultsLookup "dt" := by
  refine ⟨?_, ?_, ?_⟩
  · have h1 := (config_validation [("bogus", JValue.jbool true)]).1 ?_
    · simpa [defaultsLookup, defaultsList] using h1
    · intro k v d hm hd
      simp only [List.mem_singleton, Prod.mk.injEq] at hm
      obtain ⟨rfl, rfl⟩ := hm
      simp [defaultsLookup, defaultsList, List.lookup] at hd
  · exact (config_validation [("r_cut", JValue.jint 3)]).2.1 "r_cut" (JValue.jint 3)
      (JValue.jreal (5 / 2)) (by simp) (by simp [defaultsLookup, defaultsList, List.lookup])
      (by simp [JValue.typeOf])
  · exact (config_validation [("bogus", JValue.jbool true)]).2.2.1 "dt"
      (by simp [List.lookup])

end BD
